import Mathlib

/-!
Shallow embedding of `src/src/models/plugins/history.plugin.ts`, a Mongoose
plugin that intercepts every mutation pathway of a document schema and writes
immutable audit ("history") entries.

Field values are modelled by a small inductive `Value`; documents carry a
field map (association list, JS-object lookup semantics), a Mongoose-style
`isNew` flag, the tracker's `modifiedPaths`, and the owning connection id.
The audit store is a list of `HistoryEntry`; a write oracle
`fail : Nat → Option String` says whether the n-th write to the store fails
(and with which storage error message), so that failure propagation of the
hooks can be stated.  Each hook of the plugin becomes an explicit
state-passing function returning `Except`: on error the payload carries the
surfaced message together with the (unchanged) primary collection and the
history entries persisted so far.
-/

set_option autoImplicit false

namespace HistoryPlugin

/-- A plain JS-style field value as stored in a document / audit entry. -/
inductive Value where
  | vNull
  | vUndef
  | vStr (s : String)
  | vInt (n : Int)
  | vId (n : Nat)
  | vDate (t : Nat)
deriving DecidableEq, Repr

/-- A JS object holding field-path/value pairs; first binding wins on lookup. -/
abbrev FieldMap := List (String × Value)

/-- Object property read: `m[k]`. -/
def lookupField (m : FieldMap) (k : String) : Option Value :=
  m.lookup k

/-- Object property assignment `m[k] = v`: replaces in place, else appends. -/
def setFieldMap : FieldMap → String → Value → FieldMap
  | [], k, v => [(k, v)]
  | (k', v') :: rest, k, v =>
    if k' = k then (k', v) :: rest else (k', v') :: setFieldMap rest k v

/-- JS object spread `{...base, ...patch}`: patch fields overwrite base fields. -/
def spreadMerge (base patch : FieldMap) : FieldMap :=
  patch.foldl (fun acc kv => setFieldMap acc kv.1 kv.2) base

/-- The closed action set of the history schema. -/
inductive Action where
  | create
  | update
  | softDelete
  | hardDelete
  | restore
deriving DecidableEq, Repr

/-- One persisted history document (`IHistoryDocument`). -/
structure HistoryEntry where
  originalId : Nat
  changes : FieldMap
  snapshot : Option FieldMap
  modelName : String
  action : Action
  modifiedBy : Option Nat
deriving DecidableEq, Repr

/-- An in-memory Mongoose document of the audited collection. -/
structure Doc where
  oid : Nat
  fields : FieldMap
  isNew : Bool
  modifiedPaths : List String
  db : Nat
deriving DecidableEq, Repr

/-- `doc.toObject()`: the full plain field map (always contains `_id`). -/
def Doc.toObject (d : Doc) : FieldMap :=
  ("_id", Value.vId d.oid) :: d.fields

/-- `doc.get(path)`. -/
def Doc.get (d : Doc) (path : String) : Value :=
  (lookupField d.fields path).getD Value.vUndef

/-- Setting a document property, which also marks the path as modified. -/
def Doc.setField (d : Doc) (path : String) (v : Value) : Doc :=
  { d with
    fields := setFieldMap d.fields path v
    modifiedPaths :=
      if path ∈ d.modifiedPaths then d.modifiedPaths
      else d.modifiedPaths ++ [path] }

/-!
`HistoryModelSingleton`: lazily creates and caches exactly one history model
(audit writer) per connection.  A connection is its identity (`Nat`); a
constructed model is likewise identified by the fresh id the registry hands
out (`connection.model('History', historySchema)` yields a new model object
bound to that connection).
-/

/-- The per-connection cache `HistoryModelSingleton.models` plus the supply
of fresh model identities. -/
structure Registry where
  models : List (Nat × Nat)
  nextId : Nat
deriving DecidableEq, Repr

/-- `HistoryModelSingleton.getModel(connection)`: returns the cached model
for the connection, constructing and caching one on first access. -/
def getModel (r : Registry) (c : Nat) : Nat × Registry :=
  match r.models.lookup c with
  | some m => (m, r)
  | none => (r.nextId, ⟨r.models ++ [(c, r.nextId)], r.nextId + 1⟩)

/-- Registry well-formedness: every cached model id was handed out before
`nextId`, and both connections and model ids are duplicate-free. -/
def Registry.WF (r : Registry) : Prop :=
  (∀ p ∈ r.models, p.2 < r.nextId) ∧
  (r.models.map Prod.fst).Nodup ∧
  (r.models.map Prod.snd).Nodup

instance (r : Registry) : Decidable r.WF := by
  unfold Registry.WF; infer_instance

/-!
The audit store and `createHistoryEntry`.  The ambient
`ASYNC_STORAGE.get('currentUserId')` read is the `ctx : Option Nat`
parameter; the write oracle `fail n` is the outcome of the n-th `save()`
on the history model (counted by how many entries are already persisted):
`none` means the write succeeds, `some msg` means it rejects with the
storage error `msg`.
-/

/-- The fields `createHistoryEntry` puts on the new history document. -/
def mkHistoryEntry (modelName : String) (ctx : Option Nat) (d : Doc)
    (action : Action) (changes : FieldMap) (snapshot : Option FieldMap) :
    HistoryEntry :=
  { originalId := d.oid
    changes := changes
    snapshot := snapshot
    modelName := modelName
    action := action
    modifiedBy := ctx }

/-- `new HistoryModel({...}).save()`: appends the entry, or rejects with the
storage error the oracle assigns to this write. -/
def writeHistory (fail : Nat → Option String) (h : List HistoryEntry)
    (e : HistoryEntry) : Except String (List HistoryEntry) :=
  match fail h.length with
  | some msg => .error msg
  | none => .ok (h ++ [e])

/-- `createHistoryEntry(doc, action, changes, snapshot)`. -/
def createHistoryEntry (modelName : String) (ctx : Option Nat)
    (fail : Nat → Option String) (h : List HistoryEntry) (d : Doc)
    (action : Action) (changes : FieldMap) (snapshot : Option FieldMap) :
    Except String (List HistoryEntry) :=
  writeHistory fail h (mkHistoryEntry modelName ctx d action changes snapshot)

/-!
The hook pathways.  The primary collection is a `List Doc`; a pathway
returns `.ok` with the collection and history after the mutation, or
`.error (msg, docs, history)` when an audit write rejected: the hook's
rejection aborts the primary mutation, so the collection is returned
unchanged, and `history` holds whatever audit writes completed before the
failure.  Queries are predicates on documents; `findOne` is the first
match in collection order, `find` all matches in collection order.
-/

/-- Error payload of an aborted pathway: the surfaced storage error, the
(unchanged) primary collection, and the history persisted so far. -/
abbrev PathErr := String × List Doc × List HistoryEntry

/-- The `changes` computed by the pre-save hook: full object for a new
document, otherwise `modifiedPaths().reduce((acc, p) => acc[p] = get p)`. -/
def preSaveChanges (d : Doc) : FieldMap :=
  if d.isNew then d.toObject
  else d.modifiedPaths.map (fun p => (p, d.get p))

/-- The document as Mongoose leaves it after a successful save. -/
def Doc.afterSave (d : Doc) : Doc :=
  { d with isNew := false, modifiedPaths := [] }

/-- `doc.save()` with the plugin's `pre('save')` hook: writes one
create/update entry, then persists the document (insert when new,
replace in place otherwise). -/
def save (modelName : String) (ctx : Option Nat) (fail : Nat → Option String)
    (docs : List Doc) (h : List HistoryEntry) (d : Doc) :
    Except PathErr (List Doc × List HistoryEntry × Doc) :=
  let action := if d.isNew then Action.create else Action.update
  match createHistoryEntry modelName ctx fail h d action (preSaveChanges d)
      (some d.toObject) with
  | .error msg => .error (msg, docs, h)
  | .ok h' =>
    let saved := d.afterSave
    let docs' :=
      if d.isNew then docs ++ [saved]
      else docs.map (fun x => if x.oid = d.oid then saved else x)
    .ok (docs', h', saved)

/-- `schema.methods.softDelete`: sets the tombstone to the current date,
saves (which itself audits), then writes the explicit softDelete entry. -/
def softDelete (modelName : String) (ctx : Option Nat)
    (fail : Nat → Option String) (now : Nat) (docs : List Doc)
    (h : List HistoryEntry) (d : Doc) :
    Except PathErr (List Doc × List HistoryEntry × Doc) :=
  let d1 := d.setField "deletedAt" (Value.vDate now)
  match save modelName ctx fail docs h d1 with
  | .error err => .error err
  | .ok (docs1, h1, saved) =>
    match createHistoryEntry modelName ctx fail h1 saved Action.softDelete
        [("deletedAt", Value.vDate now)] (some saved.toObject) with
    | .error msg => .error (msg, docs1, h1)
    | .ok h2 => .ok (docs1, h2, saved)

/-- `schema.methods.restore`: clears the tombstone, saves (which itself
audits), then writes the explicit restore entry. -/
def restore (modelName : String) (ctx : Option Nat)
    (fail : Nat → Option String) (docs : List Doc)
    (h : List HistoryEntry) (d : Doc) :
    Except PathErr (List Doc × List HistoryEntry × Doc) :=
  let d1 := d.setField "deletedAt" Value.vNull
  match save modelName ctx fail docs h d1 with
  | .error err => .error err
  | .ok (docs1, h1, saved) =>
    match createHistoryEntry modelName ctx fail h1 saved Action.restore
        [("deletedAt", Value.vNull)] (some saved.toObject) with
    | .error msg => .error (msg, docs1, h1)
    | .ok h2 => .ok (docs1, h2, saved)

/-- `doc.deleteOne()` with the plugin's document-level `pre('deleteOne')`
hook: one hardDelete entry with empty changes and a full snapshot, then
the document is removed. -/
def deleteOne (modelName : String) (ctx : Option Nat)
    (fail : Nat → Option String) (docs : List Doc) (h : List HistoryEntry)
    (d : Doc) : Except PathErr (List Doc × List HistoryEntry) :=
  match createHistoryEntry modelName ctx fail h d Action.hardDelete []
      (some d.toObject) with
  | .error msg => .error (msg, docs, h)
  | .ok h' => .ok (docs.eraseP (fun x => x.oid == d.oid), h')

/-- `Model.findOneAndDelete(query)` with the plugin's hook: resolves the
first match, audits it (if any), then the primary delete removes it. -/
def findOneAndDelete (modelName : String) (ctx : Option Nat)
    (fail : Nat → Option String) (docs : List Doc) (h : List HistoryEntry)
    (q : Doc → Bool) : Except PathErr (List Doc × List HistoryEntry) :=
  match docs.find? q with
  | none => .ok (docs.eraseP q, h)
  | some d =>
    match createHistoryEntry modelName ctx fail h d Action.hardDelete []
        (some d.toObject) with
    | .error msg => .error (msg, docs, h)
    | .ok h' => .ok (docs.eraseP q, h')

/-- Applying a caller patch to a document (patch fields overwrite). -/
def applyUpdate (updates : FieldMap) (d : Doc) : Doc :=
  { d with fields := spreadMerge d.fields updates }

/-- Replace the first query match by its patched version. -/
def updateFirst (q : Doc → Bool) (f : Doc → Doc) : List Doc → List Doc
  | [] => []
  | x :: xs => if q x then f x :: xs else x :: updateFirst q f xs

/-- `Model.findOneAndUpdate(query, updates)` with the plugin's hook:
resolves the first match, audits the raw patch with a merged snapshot
(if a match exists), then the primary update patches it. -/
def findOneAndUpdate (modelName : String) (ctx : Option Nat)
    (fail : Nat → Option String) (docs : List Doc) (h : List HistoryEntry)
    (q : Doc → Bool) (updates : FieldMap) :
    Except PathErr (List Doc × List HistoryEntry) :=
  match docs.find? q with
  | none => .ok (updateFirst q (applyUpdate updates) docs, h)
  | some d =>
    match createHistoryEntry modelName ctx fail h d Action.update updates
        (some (spreadMerge d.toObject updates)) with
    | .error msg => .error (msg, docs, h)
    | .ok h' => .ok (updateFirst q (applyUpdate updates) docs, h')

/-- The sequential loop of `pre('deleteMany')`: one awaited hardDelete
entry per fetched document, aborting on the first failed write. -/
def hardDeleteLoop (modelName : String) (ctx : Option Nat)
    (fail : Nat → Option String) (h : List HistoryEntry) :
    List Doc → Except (String × List HistoryEntry) (List HistoryEntry)
  | [] => .ok h
  | d :: ds =>
    match createHistoryEntry modelName ctx fail h d Action.hardDelete []
        (some d.toObject) with
    | .error msg => .error (msg, h)
    | .ok h' => hardDeleteLoop modelName ctx fail h' ds

/-- `Model.deleteMany(query)` with the plugin's hook: fetches all matches,
audits each sequentially, then the primary delete removes the matches. -/
def deleteMany (modelName : String) (ctx : Option Nat)
    (fail : Nat → Option String) (docs : List Doc) (h : List HistoryEntry)
    (q : Doc → Bool) : Except PathErr (List Doc × List HistoryEntry) :=
  match hardDeleteLoop modelName ctx fail h (docs.filter q) with
  | .error (msg, h') => .error (msg, docs, h')
  | .ok h' => .ok (docs.filter (fun d => !q d), h')

/-- The sequential loop of `pre('updateMany')`: one awaited update entry
(raw patch, merged snapshot) per fetched document, aborting on the first
failed write. -/
def updateLoop (modelName : String) (ctx : Option Nat)
    (fail : Nat → Option String) (updates : FieldMap)
    (h : List HistoryEntry) :
    List Doc → Except (String × List HistoryEntry) (List HistoryEntry)
  | [] => .ok h
  | d :: ds =>
    match createHistoryEntry modelName ctx fail h d Action.update updates
        (some (spreadMerge d.toObject updates)) with
    | .error msg => .error (msg, h)
    | .ok h' => updateLoop modelName ctx fail updates h' ds

/-- `Model.updateMany(query, updates)` with the plugin's hook: fetches all
matches, audits each sequentially, then the primary update patches them. -/
def updateMany (modelName : String) (ctx : Option Nat)
    (fail : Nat → Option String) (docs : List Doc) (h : List HistoryEntry)
    (q : Doc → Bool) (updates : FieldMap) :
    Except PathErr (List Doc × List HistoryEntry) :=
  match updateLoop modelName ctx fail updates h (docs.filter q) with
  | .error (msg, h') => .error (msg, docs, h')
  | .ok h' => .ok (docs.map (fun d => if q d then applyUpdate updates d else d), h')

/-! Concrete sample data used to instantiate the theorems below. -/

/-- A freshly constructed, not yet persisted document. -/
def dNew : Doc :=
  { oid := 1, fields := [("name", Value.vStr "a")], isNew := true
    modifiedPaths := [], db := 0 }

/-- A persisted document with one tracked modification. -/
def dOld : Doc :=
  { oid := 2, fields := [("name", Value.vStr "b"), ("age", Value.vInt 3)]
    isNew := false, modifiedPaths := ["name"], db := 0 }

/-- A second persisted, unmodified document. -/
def dOld2 : Doc :=
  { oid := 3, fields := [("name", Value.vStr "c")], isNew := false
    modifiedPaths := [], db := 0 }

/-- A history store in which every write succeeds. -/
def okOracle : Nat → Option String := fun _ => none

/-- A history store in which every write rejects. -/
def downOracle : Nat → Option String := fun _ => some "store unavailable"

/-- A history store in which only the first write succeeds. -/
def secondWriteFails : Nat → Option String :=
  fun n => if n = 0 then none else some "store unavailable"

/-- A query matching persisted (non-new) documents. -/
def qOld : Doc → Bool := fun d => d.isNew == false

/-- A query matching nothing in the sample collection. -/
def qNone : Doc → Bool := fun d => d.oid == 99

/-! Shorthand for the documents and entries arising on the soft-delete and
restore pathways. -/

/-- The document right after `softDelete` set its tombstone field. -/
def tombstoned (d : Doc) (now : Nat) : Doc :=
  d.setField "deletedAt" (Value.vDate now)

/-- The document right after `restore` cleared its tombstone field. -/
def untombstoned (d : Doc) : Doc :=
  d.setField "deletedAt" Value.vNull

/-- The update entry written by the save inside `softDelete`. -/
def softDeleteSaveEntry (mn : String) (ctx : Option Nat) (d : Doc)
    (now : Nat) : HistoryEntry :=
  mkHistoryEntry mn ctx (tombstoned d now) Action.update
    (preSaveChanges (tombstoned d now)) (some (tombstoned d now).toObject)

/-- The explicit softDelete entry written by `softDelete`. -/
def softDeleteEntry (mn : String) (ctx : Option Nat) (d : Doc)
    (now : Nat) : HistoryEntry :=
  mkHistoryEntry mn ctx (tombstoned d now).afterSave Action.softDelete
    [("deletedAt", Value.vDate now)]
    (some (tombstoned d now).afterSave.toObject)

/-- The update entry written by the save inside `restore`. -/
def restoreSaveEntry (mn : String) (ctx : Option Nat) (d : Doc) :
    HistoryEntry :=
  mkHistoryEntry mn ctx (untombstoned d) Action.update
    (preSaveChanges (untombstoned d)) (some (untombstoned d).toObject)

/-- The explicit restore entry written by `restore`. -/
def restoreEntry (mn : String) (ctx : Option Nat) (d : Doc) : HistoryEntry :=
  mkHistoryEntry mn ctx (untombstoned d).afterSave Action.restore
    [("deletedAt", Value.vNull)] (some (untombstoned d).afterSave.toObject)

/-! ### Lookup lemmas for the field-map operations -/

theorem lookupField_nil (k : String) : lookupField [] k = none := rfl

theorem lookupField_cons (k0 : String) (v0 : Value) (m : FieldMap)
    (k : String) :
    lookupField ((k0, v0) :: m) k = if k = k0 then some v0 else lookupField m k := by
  simp only [lookupField, List.lookup_cons]
  by_cases h : k = k0
  · subst h; simp
  · have hb : (k == k0) = false := beq_eq_false_iff_ne.mpr h
    simp [hb, h]

theorem lookupField_setFieldMap (m : FieldMap) (k k' : String) (v : Value) :
    lookupField (setFieldMap m k v) k' =
      if k' = k then some v else lookupField m k' := by
  induction m with
  | nil =>
    simp [setFieldMap, lookupField_cons, lookupField_nil]
  | cons kv rest ih =>
    obtain ⟨k0, v0⟩ := kv
    by_cases hk : k0 = k
    · subst hk
      simp [setFieldMap, lookupField_cons]
      by_cases h' : k' = k0 <;> simp [h']
    · simp only [setFieldMap, if_neg hk, lookupField_cons]
      by_cases h' : k' = k0
      · subst h'
        have : ¬ k' = k := fun h => hk (h.symm ▸ rfl)
        simp [this]
      · simp [h', ih]

theorem spreadMerge_cons (base : FieldMap) (k0 : String) (v0 : Value)
    (p : FieldMap) :
    spreadMerge base ((k0, v0) :: p) = spreadMerge (setFieldMap base k0 v0) p :=
  rfl

theorem lookupField_eq_none_of_not_mem_keys (m : FieldMap) (k : String)
    (h : k ∉ m.map Prod.fst) : lookupField m k = none := by
  induction m with
  | nil => rfl
  | cons kv rest ih =>
    obtain ⟨k0, v0⟩ := kv
    simp only [List.map_cons, List.mem_cons] at h
    push_neg at h
    rw [lookupField_cons, if_neg h.1, ih h.2]

/-- Spread semantics: a patch with duplicate-free keys overrides the base
field-by-field. -/
theorem lookupField_spreadMerge (base patch : FieldMap) (k : String)
    (hnod : (patch.map Prod.fst).Nodup) :
    lookupField (spreadMerge base patch) k =
      (lookupField patch k).or (lookupField base k) := by
  induction patch generalizing base with
  | nil => simp [spreadMerge, lookupField]
  | cons kv p ih =>
    obtain ⟨k0, v0⟩ := kv
    simp only [List.map_cons, List.nodup_cons] at hnod
    rw [spreadMerge_cons, ih _ hnod.2, lookupField_cons,
      lookupField_setFieldMap]
    by_cases hk : k = k0
    · subst hk
      rw [lookupField_eq_none_of_not_mem_keys p k hnod.1]
      simp
    · simp [hk]

theorem lookupField_map_self (f : String → Value) (l : List String)
    (k : String) :
    lookupField (l.map (fun p => (p, f p))) k =
      if k ∈ l then some (f k) else none := by
  induction l with
  | nil => simp [lookupField]
  | cons p l ih =>
    simp only [List.map_cons, lookupField_cons, ih]
    by_cases hk : k = p
    · subst hk; simp
    · simp [hk]

/-- The keys of the pre-save update changes are exactly the modified paths. -/
theorem preSaveChanges_keys (d : Doc) (hnew : d.isNew = false) :
    (preSaveChanges d).map Prod.fst = d.modifiedPaths := by
  have hif : preSaveChanges d = d.modifiedPaths.map (fun p => (p, d.get p)) := by
    simp [preSaveChanges, hnew]
  rw [hif]
  induction d.modifiedPaths with
  | nil => rfl
  | cons p l ih =>
    simp only [List.map_cons]
    exact congrArg (fun t => p :: t) ih

/-! ### Claim theorems -/

/-- C1: saving a new document writes exactly one audit entry, with action
create, whose changes field equals the document's full field map and whose
snapshot equals that same full field map; the document is then inserted. -/
theorem save_create_single_full_entry (mn : String) (ctx : Option Nat)
    (fail : Nat → Option String) (docs : List Doc) (h : List HistoryEntry)
    (d : Doc) (hnew : d.isNew = true) (hfail : fail h.length = none) :
    save mn ctx fail docs h d =
      .ok (docs ++ [d.afterSave],
        h ++ [mkHistoryEntry mn ctx d Action.create d.toObject
          (some d.toObject)],
        d.afterSave) := by
  simp [save, createHistoryEntry, writeHistory, preSaveChanges, hnew, hfail]

/-- Witness for C1 at a concrete new document. -/
theorem save_create_single_full_entry_witness :
    save "Widget" none okOracle [] [] dNew =
      .ok ([] ++ [dNew.afterSave],
        [] ++ [mkHistoryEntry "Widget" none dNew Action.create dNew.toObject
          (some dNew.toObject)],
        dNew.afterSave) :=
  save_create_single_full_entry "Widget" none okOracle [] [] dNew rfl rfl

/-- C2: saving a non-new document writes exactly one audit entry, with
action update, whose changes map is exactly the tracker's modified paths,
each paired with its post-update value (so no unmodified path occurs among
the keys), and whose snapshot is the full resulting document. -/
theorem save_update_changes_exactly_modified (mn : String) (ctx : Option Nat)
    (fail : Nat → Option String) (docs : List Doc) (h : List HistoryEntry)
    (d : Doc) (hnew : d.isNew = false) (hfail : fail h.length = none) :
    save mn ctx fail docs h d =
      .ok (docs.map (fun x => if x.oid = d.oid then d.afterSave else x),
        h ++ [mkHistoryEntry mn ctx d Action.update
          (d.modifiedPaths.map (fun p => (p, d.get p))) (some d.toObject)],
        d.afterSave) ∧
    (mkHistoryEntry mn ctx d Action.update
        (d.modifiedPaths.map (fun p => (p, d.get p)))
        (some d.toObject)).changes.map Prod.fst = d.modifiedPaths := by
  constructor
  · simp [save, createHistoryEntry, writeHistory, preSaveChanges, hnew, hfail]
  · have := preSaveChanges_keys d hnew
    simpa [preSaveChanges, hnew, mkHistoryEntry] using this

/-- Witness for C2 at a concrete persisted document with one modified path. -/
theorem save_update_changes_exactly_modified_witness :
    save "Widget" none okOracle [dOld] [] dOld =
      .ok ([dOld].map (fun x => if x.oid = dOld.oid then dOld.afterSave else x),
        [] ++ [mkHistoryEntry "Widget" none dOld Action.update
          (dOld.modifiedPaths.map (fun p => (p, dOld.get p)))
          (some dOld.toObject)],
        dOld.afterSave) ∧
    (mkHistoryEntry "Widget" none dOld Action.update
        (dOld.modifiedPaths.map (fun p => (p, dOld.get p)))
        (some dOld.toObject)).changes.map Prod.fst = dOld.modifiedPaths :=
  save_update_changes_exactly_modified "Widget" none okOracle [dOld] [] dOld
    rfl rfl

/-! ### Association-list lemmas for the registry cache -/

theorem lookup_mem_pairs {l : List (Nat × Nat)} {c m : Nat}
    (h : l.lookup c = some m) : (c, m) ∈ l := by
  induction l with
  | nil => simp at h
  | cons kv rest ih =>
    obtain ⟨k0, v0⟩ := kv
    rw [List.lookup_cons] at h
    by_cases hb : c = k0
    · subst hb
      rw [beq_self_eq_true] at h
      have h' : some v0 = some m := h
      cases h'
      exact List.mem_cons_self _ _
    · rw [beq_eq_false_iff_ne.mpr hb] at h
      exact List.mem_cons_of_mem _ (ih h)

theorem lookup_append_pairs (l₁ l₂ : List (Nat × Nat)) (c : Nat) :
    (l₁ ++ l₂).lookup c = (l₁.lookup c).or (l₂.lookup c) := by
  induction l₁ with
  | nil => simp
  | cons kv rest ih =>
    obtain ⟨k0, v0⟩ := kv
    rw [List.cons_append, List.lookup_cons, List.lookup_cons]
    cases hb : c == k0
    · simpa using ih
    · rfl

theorem lookup_single_self (c v : Nat) : ([(c, v)] : List (Nat × Nat)).lookup c = some v := by
  rw [List.lookup_cons, beq_self_eq_true]

theorem lookup_single_ne {c c' v : Nat} (h : c' ≠ c) :
    ([(c, v)] : List (Nat × Nat)).lookup c' = none := by
  rw [List.lookup_cons, beq_eq_false_iff_ne.mpr h]
  rfl

/-- C6: resolving the history model twice for the same connection returns
the same model and leaves the registry unchanged (at most one model is ever
constructed per connection), while resolving for a distinct connection
yields a distinct model. -/
theorem getModel_same_conn_same_model_distinct_conn_distinct
    (r : Registry) (c c' : Nat) (hwf : r.WF) (hne : c ≠ c') :
    (getModel (getModel r c).2 c).1 = (getModel r c).1 ∧
    (getModel (getModel r c).2 c).2 = (getModel r c).2 ∧
    (getModel (getModel r c).2 c').1 ≠ (getModel r c).1 := by
  obtain ⟨hlt, _hkeys, hvals⟩ := hwf
  have hne' : c' ≠ c := fun h => hne h.symm
  cases hc : r.models.lookup c with
  | some m =>
    have h1 : getModel r c = (m, r) := by simp [getModel, hc]
    refine ⟨by simp [h1, getModel, hc], by simp [h1, getModel, hc], ?_⟩
    simp only [h1]
    cases hc' : r.models.lookup c' with
    | some m2 =>
      have h2 : getModel r c' = (m2, r) := by simp [getModel, hc']
      simp only [h2]
      intro heq
      have hmem1 := lookup_mem_pairs hc
      have hmem2 := lookup_mem_pairs hc'
      have hpair : (c', m2) = (c, m) :=
        List.inj_on_of_nodup_map hvals hmem2 hmem1 (by simp [heq])
      exact hne' (congrArg Prod.fst hpair)
    | none =>
      have h2 : getModel r c' =
          (r.nextId, ⟨r.models ++ [(c', r.nextId)], r.nextId + 1⟩) := by
        simp [getModel, hc']
      simp only [h2]
      have hm : m < r.nextId := hlt _ (lookup_mem_pairs hc)
      intro he
      omega
  | none =>
    have h1 : getModel r c =
        (r.nextId, ⟨r.models ++ [(c, r.nextId)], r.nextId + 1⟩) := by
      simp [getModel, hc]
    have hlook : (r.models ++ [(c, r.nextId)]).lookup c = some r.nextId := by
      rw [lookup_append_pairs, hc, lookup_single_self]
      rfl
    refine ⟨?_, ?_, ?_⟩
    · simp only [h1]
      simp [getModel, hlook]
    · simp only [h1]
      simp [getModel, hlook]
    · simp only [h1]
      have hlook' : (r.models ++ [(c, r.nextId)]).lookup c' =
          r.models.lookup c' := by
        rw [lookup_append_pairs, lookup_single_ne hne']
        cases r.models.lookup c' <;> rfl
      cases hc' : r.models.lookup c' with
      | some m2 =>
        have h2 : getModel ⟨r.models ++ [(c, r.nextId)], r.nextId + 1⟩ c' =
            (m2, ⟨r.models ++ [(c, r.nextId)], r.nextId + 1⟩) := by
          simp [getModel, hlook', hc']
        simp only [h2]
        have hm : m2 < r.nextId := hlt _ (lookup_mem_pairs hc')
        intro he
        omega
      | none =>
        have h2 : getModel ⟨r.models ++ [(c, r.nextId)], r.nextId + 1⟩ c' =
            (r.nextId + 1,
              ⟨(r.models ++ [(c, r.nextId)]) ++ [(c', r.nextId + 1)],
                r.nextId + 2⟩) := by
          simp [getModel, hlook', hc']
        simp only [h2]
        omega

/-- Witness for C6 at the empty registry and two distinct connections. -/
theorem getModel_same_conn_same_model_distinct_conn_distinct_witness :
    (getModel (getModel ⟨[], 0⟩ 0).2 0).1 = (getModel ⟨[], 0⟩ 0).1 ∧
    (getModel (getModel ⟨[], 0⟩ 0).2 0).2 = (getModel ⟨[], 0⟩ 0).2 ∧
    (getModel (getModel ⟨[], 0⟩ 0).2 1).1 ≠ (getModel ⟨[], 0⟩ 0).1 :=
  getModel_same_conn_same_model_distinct_conn_distinct ⟨[], 0⟩ 0 1
    (by decide) (by decide)

/-- C3: the instance hard-delete pathway and the query-based single
hard-delete pathway each write exactly one hardDelete entry whose changes
map is empty and whose snapshot is the full (hence non-empty) state of the
deleted document immediately before its removal. -/
theorem hardDelete_single_entry_empty_changes_full_snapshot
    (mn : String) (ctx : Option Nat) (fail : Nat → Option String)
    (docs : List Doc) (h : List HistoryEntry) (d dq : Doc) (q : Doc → Bool)
    (hfail : fail h.length = none) (hfind : docs.find? q = some dq) :
    deleteOne mn ctx fail docs h d =
      .ok (docs.eraseP (fun x => x.oid == d.oid),
        h ++ [mkHistoryEntry mn ctx d Action.hardDelete []
          (some d.toObject)]) ∧
    d.toObject ≠ [] ∧
    findOneAndDelete mn ctx fail docs h q =
      .ok (docs.eraseP q,
        h ++ [mkHistoryEntry mn ctx dq Action.hardDelete []
          (some dq.toObject)]) ∧
    dq.toObject ≠ [] := by
  refine ⟨?_, by simp [Doc.toObject], ?_, by simp [Doc.toObject]⟩
  · simp [deleteOne, createHistoryEntry, writeHistory, hfail]
  · simp [findOneAndDelete, hfind, createHistoryEntry, writeHistory, hfail]

/-- Witness for C3 at a concrete two-document collection. -/
theorem hardDelete_single_entry_empty_changes_full_snapshot_witness :
    deleteOne "Widget" none okOracle [dOld, dOld2] [] dOld =
      .ok ([dOld, dOld2].eraseP (fun x => x.oid == dOld.oid),
        [] ++ [mkHistoryEntry "Widget" none dOld Action.hardDelete []
          (some dOld.toObject)]) ∧
    dOld.toObject ≠ [] ∧
    findOneAndDelete "Widget" none okOracle [dOld, dOld2] [] qOld =
      .ok ([dOld, dOld2].eraseP qOld,
        [] ++ [mkHistoryEntry "Widget" none dOld Action.hardDelete []
          (some dOld.toObject)]) ∧
    dOld.toObject ≠ [] :=
  hardDelete_single_entry_empty_changes_full_snapshot "Widget" none okOracle
    [dOld, dOld2] [] dOld dOld qOld rfl rfl

/-- Replacing the first match is the identity when nothing matches. -/
theorem updateFirst_of_forall_not (q : Doc → Bool) (f : Doc → Doc)
    (l : List Doc) (h : ∀ x ∈ l, ¬ q x) : updateFirst q f l = l := by
  induction l with
  | nil => rfl
  | cons x xs ih =>
    have hx : q x = false := by
      simpa using h x (List.mem_cons_self x xs)
    simp [updateFirst, hx, ih (fun y hy => h y (List.mem_cons_of_mem x hy))]

/-- C10: when the criteria of a query-based single delete or update match
no document, no audit entry is written and the pathway completes without
error (with the collection untouched), whatever the write oracle does. -/
theorem query_single_no_match_no_entry_no_error
    (mn : String) (ctx : Option Nat) (fail : Nat → Option String)
    (docs : List Doc) (h : List HistoryEntry) (q : Doc → Bool)
    (updates : FieldMap) (hq : docs.find? q = none) :
    findOneAndDelete mn ctx fail docs h q = .ok (docs, h) ∧
    findOneAndUpdate mn ctx fail docs h q updates = .ok (docs, h) := by
  have hnone : ∀ x ∈ docs, ¬ q x := by
    simpa using List.find?_eq_none.mp hq
  have herase : docs.eraseP q = docs := List.eraseP_of_forall_not hnone
  have hupd : updateFirst q (applyUpdate updates) docs = docs :=
    updateFirst_of_forall_not q _ docs hnone
  constructor
  · simp [findOneAndDelete, hq, herase]
  · simp [findOneAndUpdate, hq, hupd]

/-- Witness for C10: a query matching nothing, against a store whose every
write would fail. -/
theorem query_single_no_match_no_entry_no_error_witness :
    findOneAndDelete "Widget" none downOracle [dOld, dOld2] [] qNone =
      .ok ([dOld, dOld2], []) ∧
    findOneAndUpdate "Widget" none downOracle [dOld, dOld2] [] qNone
      [("name", Value.vStr "z")] = .ok ([dOld, dOld2], []) :=
  query_single_no_match_no_entry_no_error "Widget" none downOracle
    [dOld, dOld2] [] qNone [("name", Value.vStr "z")] rfl

/-- C5: the soft-delete pathway writes exactly two entries — the update
entry of the underlying save followed by a softDelete entry whose changes
map is exactly the tombstone field bound to a non-null date — and the
restore pathway is the mirror, writing the save's update entry followed by
a restore entry whose changes map is exactly the tombstone field bound to
null; each explicit entry carries a full-document snapshot. -/
theorem softDelete_restore_update_plus_explicit_entry
    (mn : String) (ctx : Option Nat) (fail : Nat → Option String) (now : Nat)
    (docs : List Doc) (h : List HistoryEntry) (d : Doc)
    (hnew : d.isNew = false) (hf0 : fail h.length = none)
    (hf1 : fail (h.length + 1) = none) :
    softDelete mn ctx fail now docs h d =
      .ok (docs.map (fun x => if x.oid = d.oid
            then (tombstoned d now).afterSave else x),
        h ++ [softDeleteSaveEntry mn ctx d now, softDeleteEntry mn ctx d now],
        (tombstoned d now).afterSave) ∧
    (softDeleteSaveEntry mn ctx d now).action = Action.update ∧
    (softDeleteEntry mn ctx d now).changes =
      [("deletedAt", Value.vDate now)] ∧
    Value.vDate now ≠ Value.vNull ∧
    (softDeleteEntry mn ctx d now).snapshot =
      some (tombstoned d now).afterSave.toObject ∧
    restore mn ctx fail docs h d =
      .ok (docs.map (fun x => if x.oid = d.oid
            then (untombstoned d).afterSave else x),
        h ++ [restoreSaveEntry mn ctx d, restoreEntry mn ctx d],
        (untombstoned d).afterSave) ∧
    (restoreSaveEntry mn ctx d).action = Action.update ∧
    (restoreEntry mn ctx d).changes = [("deletedAt", Value.vNull)] ∧
    (restoreEntry mn ctx d).snapshot =
      some (untombstoned d).afterSave.toObject := by
  refine ⟨?_, rfl, rfl, by simp, rfl, ?_, rfl, rfl, rfl⟩
  · simp [softDelete, save, createHistoryEntry, writeHistory, hnew, hf0, hf1,
      tombstoned, softDeleteSaveEntry, softDeleteEntry, Doc.setField,
      Doc.afterSave, mkHistoryEntry]
  · simp [restore, save, createHistoryEntry, writeHistory, hnew, hf0, hf1,
      untombstoned, restoreSaveEntry, restoreEntry, Doc.setField,
      Doc.afterSave, mkHistoryEntry]

/-- Witness for C5 at a concrete persisted document. -/
theorem softDelete_restore_update_plus_explicit_entry_witness :
    softDelete "Widget" none okOracle 5 [dOld] [] dOld =
      .ok ([dOld].map (fun x => if x.oid = dOld.oid
            then (tombstoned dOld 5).afterSave else x),
        [] ++ [softDeleteSaveEntry "Widget" none dOld 5,
          softDeleteEntry "Widget" none dOld 5],
        (tombstoned dOld 5).afterSave) ∧
    (softDeleteSaveEntry "Widget" none dOld 5).action = Action.update ∧
    (softDeleteEntry "Widget" none dOld 5).changes =
      [("deletedAt", Value.vDate 5)] ∧
    Value.vDate 5 ≠ Value.vNull ∧
    (softDeleteEntry "Widget" none dOld 5).snapshot =
      some (tombstoned dOld 5).afterSave.toObject ∧
    restore "Widget" none okOracle [dOld] [] dOld =
      .ok ([dOld].map (fun x => if x.oid = dOld.oid
            then (untombstoned dOld).afterSave else x),
        [] ++ [restoreSaveEntry "Widget" none dOld,
          restoreEntry "Widget" none dOld],
        (untombstoned dOld).afterSave) ∧
    (restoreSaveEntry "Widget" none dOld).action = Action.update ∧
    (restoreEntry "Widget" none dOld).changes =
      [("deletedAt", Value.vNull)] ∧
    (restoreEntry "Widget" none dOld).snapshot =
      some (untombstoned dOld).afterSave.toObject :=
  softDelete_restore_update_plus_explicit_entry "Widget" none okOracle 5
    [dOld] [] dOld rfl rfl rfl

/-- C8: when the audit write of a single-entity or query-based-single
pathway fails, the pathway surfaces the storage error, the primary
mutation is not applied (the collection is returned unchanged) and no
audit entry is persisted. -/
theorem audit_write_failure_blocks_single_mutations
    (mn : String) (ctx : Option Nat) (fail : Nat → Option String)
    (docs : List Doc) (h : List HistoryEntry) (d dq : Doc) (q : Doc → Bool)
    (updates : FieldMap) (msg : String)
    (hfail : fail h.length = some msg) (hfind : docs.find? q = some dq) :
    save mn ctx fail docs h d = .error (msg, docs, h) ∧
    deleteOne mn ctx fail docs h d = .error (msg, docs, h) ∧
    findOneAndDelete mn ctx fail docs h q = .error (msg, docs, h) ∧
    findOneAndUpdate mn ctx fail docs h q updates = .error (msg, docs, h) := by
  refine ⟨?_, ?_, ?_, ?_⟩
  · simp [save, createHistoryEntry, writeHistory, hfail]
  · simp [deleteOne, createHistoryEntry, writeHistory, hfail]
  · simp [findOneAndDelete, hfind, createHistoryEntry, writeHistory, hfail]
  · simp [findOneAndUpdate, hfind, createHistoryEntry, writeHistory, hfail]

/-- Witness for C8 against a store whose writes all reject. -/
theorem audit_write_failure_blocks_single_mutations_witness :
    save "Widget" none downOracle [dOld] [] dOld =
      .error ("store unavailable", [dOld], []) ∧
    deleteOne "Widget" none downOracle [dOld] [] dOld =
      .error ("store unavailable", [dOld], []) ∧
    findOneAndDelete "Widget" none downOracle [dOld] [] qOld =
      .error ("store unavailable", [dOld], []) ∧
    findOneAndUpdate "Widget" none downOracle [dOld] [] qOld
      [("name", Value.vStr "z")] = .error ("store unavailable", [dOld], []) :=
  audit_write_failure_blocks_single_mutations "Widget" none downOracle
    [dOld] [] dOld dOld qOld [("name", Value.vStr "z")] "store unavailable"
    rfl rfl

/-- C9: the produced entry's modifiedBy field is exactly the ambient actor
context: absent context yields an absent modifiedBy and no error, a bound
context value is copied verbatim. -/
theorem actor_context_copied_or_absent
    (mn : String) (fail : Nat → Option String) (h : List HistoryEntry)
    (d : Doc) (a : Action) (ch : FieldMap) (sn : Option FieldMap) (u : Nat)
    (hfail : fail h.length = none) :
    createHistoryEntry mn none fail h d a ch sn =
      .ok (h ++ [mkHistoryEntry mn none d a ch sn]) ∧
    (mkHistoryEntry mn none d a ch sn).modifiedBy = none ∧
    createHistoryEntry mn (some u) fail h d a ch sn =
      .ok (h ++ [mkHistoryEntry mn (some u) d a ch sn]) ∧
    (mkHistoryEntry mn (some u) d a ch sn).modifiedBy = some u := by
  refine ⟨?_, rfl, ?_, rfl⟩ <;>
    simp [createHistoryEntry, writeHistory, hfail]

/-- Witness for C9 at a concrete entry with and without a bound actor. -/
theorem actor_context_copied_or_absent_witness :
    createHistoryEntry "Widget" none okOracle [] dOld Action.update
      [("name", Value.vStr "b")] (some dOld.toObject) =
      .ok ([] ++ [mkHistoryEntry "Widget" none dOld Action.update
        [("name", Value.vStr "b")] (some dOld.toObject)]) ∧
    (mkHistoryEntry "Widget" none dOld Action.update
      [("name", Value.vStr "b")] (some dOld.toObject)).modifiedBy = none ∧
    createHistoryEntry "Widget" (some 7) okOracle [] dOld Action.update
      [("name", Value.vStr "b")] (some dOld.toObject) =
      .ok ([] ++ [mkHistoryEntry "Widget" (some 7) dOld Action.update
        [("name", Value.vStr "b")] (some dOld.toObject)]) ∧
    (mkHistoryEntry "Widget" (some 7) dOld Action.update
      [("name", Value.vStr "b")] (some dOld.toObject)).modifiedBy = some 7 :=
  actor_context_copied_or_absent "Widget" okOracle [] dOld Action.update
    [("name", Value.vStr "b")] (some dOld.toObject) 7 rfl

/-! ### Behaviour of the sequential bulk audit loops -/

theorem hardDeleteLoop_all_ok (mn : String) (ctx : Option Nat)
    (fail : Nat → Option String) (ds : List Doc) (h : List HistoryEntry)
    (hs : ∀ i, i < ds.length → fail (h.length + i) = none) :
    hardDeleteLoop mn ctx fail h ds =
      .ok (h ++ ds.map (fun d =>
        mkHistoryEntry mn ctx d Action.hardDelete [] (some d.toObject))) := by
  induction ds generalizing h with
  | nil => simp [hardDeleteLoop]
  | cons d ds ih =>
    have h0 : fail h.length = none := by
      simpa using hs 0 (Nat.succ_pos _)
    have hs' : ∀ i, i < ds.length →
        fail ((h ++ [mkHistoryEntry mn ctx d Action.hardDelete []
          (some d.toObject)]).length + i) = none := by
      intro i hi
      have harith : (h ++ [mkHistoryEntry mn ctx d Action.hardDelete []
          (some d.toObject)]).length + i = h.length + (i + 1) := by
        simp [List.length_append]
        omega
      rw [harith]
      exact hs (i + 1) (by simpa using Nat.succ_lt_succ hi)
    simp only [hardDeleteLoop, createHistoryEntry, writeHistory, h0]
    rw [ih _ hs']
    simp

theorem hardDeleteLoop_aborts (mn : String) (ctx : Option Nat)
    (fail : Nat → Option String) (ds : List Doc) (h : List HistoryEntry)
    (jj : Nat) (msg : String) (hjj : jj < ds.length)
    (hs : ∀ i, i < jj → fail (h.length + i) = none)
    (hf : fail (h.length + jj) = some msg) :
    hardDeleteLoop mn ctx fail h ds =
      .error (msg, h ++ (ds.take jj).map (fun d =>
        mkHistoryEntry mn ctx d Action.hardDelete [] (some d.toObject))) := by
  induction ds generalizing h jj with
  | nil => exact absurd hjj (by simp)
  | cons d ds ih =>
    cases jj with
    | zero =>
      have hf0 : fail h.length = some msg := by simpa using hf
      simp [hardDeleteLoop, createHistoryEntry, writeHistory, hf0]
    | succ j =>
      have h0 : fail h.length = none := by
        simpa using hs 0 (Nat.succ_pos _)
      have harith : ∀ i : Nat,
          (h ++ [mkHistoryEntry mn ctx d Action.hardDelete []
            (some d.toObject)]).length + i = h.length + (i + 1) := by
        intro i
        simp [List.length_append]
        omega
      have hs' : ∀ i, i < j →
          fail ((h ++ [mkHistoryEntry mn ctx d Action.hardDelete []
            (some d.toObject)]).length + i) = none := by
        intro i hi
        rw [harith i]
        exact hs (i + 1) (by simpa using Nat.succ_lt_succ hi)
      have hf' : fail ((h ++ [mkHistoryEntry mn ctx d Action.hardDelete []
          (some d.toObject)]).length + j) = some msg := by
        rw [harith j]
        exact hf
      simp only [hardDeleteLoop, createHistoryEntry, writeHistory, h0]
      rw [ih _ _ (by simpa using Nat.lt_of_succ_lt_succ hjj) hs' hf']
      simp

theorem updateLoop_all_ok (mn : String) (ctx : Option Nat)
    (fail : Nat → Option String) (updates : FieldMap) (ds : List Doc)
    (h : List HistoryEntry)
    (hs : ∀ i, i < ds.length → fail (h.length + i) = none) :
    updateLoop mn ctx fail updates h ds =
      .ok (h ++ ds.map (fun d => mkHistoryEntry mn ctx d Action.update
        updates (some (spreadMerge d.toObject updates)))) := by
  induction ds generalizing h with
  | nil => simp [updateLoop]
  | cons d ds ih =>
    have h0 : fail h.length = none := by
      simpa using hs 0 (Nat.succ_pos _)
    have hs' : ∀ i, i < ds.length →
        fail ((h ++ [mkHistoryEntry mn ctx d Action.update updates
          (some (spreadMerge d.toObject updates))]).length + i) = none := by
      intro i hi
      have harith : (h ++ [mkHistoryEntry mn ctx d Action.update updates
          (some (spreadMerge d.toObject updates))]).length + i =
          h.length + (i + 1) := by
        simp [List.length_append]
        omega
      rw [harith]
      exact hs (i + 1) (by simpa using Nat.succ_lt_succ hi)
    simp only [updateLoop, createHistoryEntry, writeHistory, h0]
    rw [ih _ hs']
    simp

theorem updateLoop_aborts (mn : String) (ctx : Option Nat)
    (fail : Nat → Option String) (updates : FieldMap) (ds : List Doc)
    (h : List HistoryEntry) (jj : Nat) (msg : String) (hjj : jj < ds.length)
    (hs : ∀ i, i < jj → fail (h.length + i) = none)
    (hf : fail (h.length + jj) = some msg) :
    updateLoop mn ctx fail updates h ds =
      .error (msg, h ++ (ds.take jj).map (fun d =>
        mkHistoryEntry mn ctx d Action.update updates
          (some (spreadMerge d.toObject updates)))) := by
  induction ds generalizing h jj with
  | nil => exact absurd hjj (by simp)
  | cons d ds ih =>
    cases jj with
    | zero =>
      have hf0 : fail h.length = some msg := by simpa using hf
      simp [updateLoop, createHistoryEntry, writeHistory, hf0]
    | succ j =>
      have h0 : fail h.length = none := by
        simpa using hs 0 (Nat.succ_pos _)
      have harith : ∀ i : Nat,
          (h ++ [mkHistoryEntry mn ctx d Action.update updates
            (some (spreadMerge d.toObject updates))]).length + i =
          h.length + (i + 1) := by
        intro i
        simp [List.length_append]
        omega
      have hs' : ∀ i, i < j →
          fail ((h ++ [mkHistoryEntry mn ctx d Action.update updates
            (some (spreadMerge d.toObject updates))]).length + i) = none := by
        intro i hi
        rw [harith i]
        exact hs (i + 1) (by simpa using Nat.succ_lt_succ hi)
      have hf' : fail ((h ++ [mkHistoryEntry mn ctx d Action.update updates
          (some (spreadMerge d.toObject updates))]).length + j) = some msg := by
        rw [harith j]
        exact hf
      simp only [updateLoop, createHistoryEntry, writeHistory, h0]
      rw [ih _ _ (by simpa using Nat.lt_of_succ_lt_succ hjj) hs' hf']
      simp

/-- C4: a bulk delete or bulk update over the N matched documents writes
exactly N entries, one per match, in fetch order, sequentially; when the
write for the (jj+1)-th match fails, processing aborts with exactly the
first jj entries persisted and the primary bulk mutation not applied
(the collection is returned unchanged). -/
theorem bulk_sequential_order_and_abort
    (mn : String) (ctx : Option Nat) (fail1 fail2 : Nat → Option String)
    (docs : List Doc) (h : List HistoryEntry) (q : Doc → Bool)
    (updates : FieldMap) (jj : Nat) (msg : String)
    (hall : ∀ n, fail1 n = none)
    (hjj : jj < (docs.filter q).length)
    (hs : ∀ i, i < jj → fail2 (h.length + i) = none)
    (hf : fail2 (h.length + jj) = some msg) :
    deleteMany mn ctx fail1 docs h q =
      .ok (docs.filter (fun d => !q d),
        h ++ (docs.filter q).map (fun d =>
          mkHistoryEntry mn ctx d Action.hardDelete [] (some d.toObject))) ∧
    (h ++ (docs.filter q).map (fun d =>
      mkHistoryEntry mn ctx d Action.hardDelete [] (some d.toObject))).length
      = h.length + (docs.filter q).length ∧
    updateMany mn ctx fail1 docs h q updates =
      .ok (docs.map (fun d => if q d then applyUpdate updates d else d),
        h ++ (docs.filter q).map (fun d => mkHistoryEntry mn ctx d
          Action.update updates (some (spreadMerge d.toObject updates)))) ∧
    deleteMany mn ctx fail2 docs h q =
      .error (msg, docs, h ++ ((docs.filter q).take jj).map (fun d =>
        mkHistoryEntry mn ctx d Action.hardDelete [] (some d.toObject))) ∧
    updateMany mn ctx fail2 docs h q updates =
      .error (msg, docs, h ++ ((docs.filter q).take jj).map (fun d =>
        mkHistoryEntry mn ctx d Action.update updates
          (some (spreadMerge d.toObject updates)))) ∧
    (h ++ ((docs.filter q).take jj).map (fun d =>
      mkHistoryEntry mn ctx d Action.hardDelete [] (some d.toObject))).length
      = h.length + jj := by
  refine ⟨?_, ?_, ?_, ?_, ?_, ?_⟩
  · have hok := hardDeleteLoop_all_ok mn ctx fail1 (docs.filter q) h
      (fun i _ => hall _)
    simp [deleteMany, hok]
  · simp
  · have hok := updateLoop_all_ok mn ctx fail1 updates (docs.filter q) h
      (fun i _ => hall _)
    simp [updateMany, hok]
  · have herr := hardDeleteLoop_aborts mn ctx fail2 (docs.filter q) h jj msg
      hjj hs hf
    simp [deleteMany, herr]
  · have herr := updateLoop_aborts mn ctx fail2 updates (docs.filter q) h jj
      msg hjj hs hf
    simp [updateMany, herr]
  · simp [List.length_take]
    omega

/-- Witness for C4: two matched documents, an always-up store for the
success half, and a store whose second write rejects for the abort half. -/
theorem bulk_sequential_order_and_abort_witness :
    deleteMany "Widget" none okOracle [dOld, dOld2] [] qOld =
      .ok ([dOld, dOld2].filter (fun d => !qOld d),
        [] ++ ([dOld, dOld2].filter qOld).map (fun d =>
          mkHistoryEntry "Widget" none d Action.hardDelete []
            (some d.toObject))) ∧
    ([] ++ ([dOld, dOld2].filter qOld).map (fun d =>
      mkHistoryEntry "Widget" none d Action.hardDelete []
        (some d.toObject))).length
      = ([] : List HistoryEntry).length + ([dOld, dOld2].filter qOld).length ∧
    updateMany "Widget" none okOracle [dOld, dOld2] [] qOld
      [("name", Value.vStr "z")] =
      .ok ([dOld, dOld2].map (fun d =>
          if qOld d then applyUpdate [("name", Value.vStr "z")] d else d),
        [] ++ ([dOld, dOld2].filter qOld).map (fun d =>
          mkHistoryEntry "Widget" none d Action.update
            [("name", Value.vStr "z")]
            (some (spreadMerge d.toObject [("name", Value.vStr "z")])))) ∧
    deleteMany "Widget" none secondWriteFails [dOld, dOld2] [] qOld =
      .error ("store unavailable", [dOld, dOld2],
        [] ++ (([dOld, dOld2].filter qOld).take 1).map (fun d =>
          mkHistoryEntry "Widget" none d Action.hardDelete []
            (some d.toObject))) ∧
    updateMany "Widget" none secondWriteFails [dOld, dOld2] [] qOld
      [("name", Value.vStr "z")] =
      .error ("store unavailable", [dOld, dOld2],
        [] ++ (([dOld, dOld2].filter qOld).take 1).map (fun d =>
          mkHistoryEntry "Widget" none d Action.update
            [("name", Value.vStr "z")]
            (some (spreadMerge d.toObject [("name", Value.vStr "z")])))) ∧
    ([] ++ (([dOld, dOld2].filter qOld).take 1).map (fun d =>
      mkHistoryEntry "Widget" none d Action.hardDelete []
        (some d.toObject))).length
      = ([] : List HistoryEntry).length + 1 :=
  bulk_sequential_order_and_abort "Widget" none okOracle secondWriteFails
    [dOld, dOld2] [] qOld [("name", Value.vStr "z")] 1 "store unavailable"
    (fun _ => rfl) (by decide) (by decide) (by decide)

/-- C7: on the criteria-based single update and on the bulk update, the
entry's changes field is the caller-supplied patch verbatim (whatever its
keys, operator-style included), and its snapshot is the document's current
state spread-merged with the patch, patch fields overwriting. -/
theorem query_update_patch_verbatim_merged_snapshot
    (mn : String) (ctx : Option Nat) (fail : Nat → Option String)
    (docs : List Doc) (h : List HistoryEntry) (q : Doc → Bool)
    (updates : FieldMap) (dq : Doc) (k : String)
    (hall : ∀ n, fail n = none) (hfind : docs.find? q = some dq)
    (hnod : (updates.map Prod.fst).Nodup) :
    findOneAndUpdate mn ctx fail docs h q updates =
      .ok (updateFirst q (applyUpdate updates) docs,
        h ++ [mkHistoryEntry mn ctx dq Action.update updates
          (some (spreadMerge dq.toObject updates))]) ∧
    updateMany mn ctx fail docs h q updates =
      .ok (docs.map (fun d => if q d then applyUpdate updates d else d),
        h ++ (docs.filter q).map (fun d => mkHistoryEntry mn ctx d
          Action.update updates (some (spreadMerge d.toObject updates)))) ∧
    lookupField (spreadMerge dq.toObject updates) k =
      (lookupField updates k).or (lookupField dq.toObject k) := by
  refine ⟨?_, ?_, lookupField_spreadMerge _ _ _ hnod⟩
  · simp [findOneAndUpdate, hfind, createHistoryEntry, writeHistory,
      hall h.length]
  · have hok := updateLoop_all_ok mn ctx fail updates (docs.filter q) h
      (fun i _ => hall _)
    simp [updateMany, hok]

/-- Witness for C7 with an operator-style patch key. -/
theorem query_update_patch_verbatim_merged_snapshot_witness :
    findOneAndUpdate "Widget" none okOracle [dOld] [] qOld
      [("$inc", Value.vInt 1)] =
      .ok (updateFirst qOld (applyUpdate [("$inc", Value.vInt 1)]) [dOld],
        [] ++ [mkHistoryEntry "Widget" none dOld Action.update
          [("$inc", Value.vInt 1)]
          (some (spreadMerge dOld.toObject [("$inc", Value.vInt 1)]))]) ∧
    updateMany "Widget" none okOracle [dOld] [] qOld
      [("$inc", Value.vInt 1)] =
      .ok ([dOld].map (fun d =>
          if qOld d then applyUpdate [("$inc", Value.vInt 1)] d else d),
        [] ++ ([dOld].filter qOld).map (fun d =>
          mkHistoryEntry "Widget" none d Action.update
            [("$inc", Value.vInt 1)]
            (some (spreadMerge d.toObject [("$inc", Value.vInt 1)])))) ∧
    lookupField (spreadMerge dOld.toObject [("$inc", Value.vInt 1)]) "$inc" =
      (lookupField [("$inc", Value.vInt 1)] "$inc").or
        (lookupField dOld.toObject "$inc") :=
  query_update_patch_verbatim_merged_snapshot "Widget" none okOracle [dOld]
    [] qOld [("$inc", Value.vInt 1)] dOld "$inc" (fun _ => rfl) rfl
    (by decide)

end HistoryPlugin
